import Mathlib

/-!
Verification of the gwrappy pagination and polling core.

The definitions below are shallow embeddings of the Python source:

* `Gwrappy.iterate_list` embeds the generator `iterate_list` of
  `gwrappy/utils.py` (the `filter_exp` / `max_results` / `break_condition`
  checks appear in the source's order).
* `Gwrappy.Iterator.iterate_list` embeds the eager, list-returning
  `iterate_list` of `gwrappy/iterator.py`.
* `Gwrappy.BQ` embeds BigQuery's `poll_job_status`, `JobError`,
  `poll_resp_list` and the input validation of `copy_table`
  (`gwrappy/bigquery/bigquery.py`, `gwrappy/bigquery/errors.py`).
* `Gwrappy.DP` embeds Dataproc's `get_job` (`gwrappy/dataproc/dataproc.py`).
* `Gwrappy.CE` embeds Compute Engine's `poll_operation_status`
  (`gwrappy/compute/compute.py`).

The remote service is modelled as a pure fetch capability; `while` loops of
the source become fuel-indexed recursions, `none` marking that the loop has
not returned within the given fuel.
-/

namespace Gwrappy

/-- One listing response: the optional result array (absent models a response
without the `object_name` key) and the optional `nextPageToken`. -/
structure Resp (α σ : Type) where
  items : Option (List α)
  nextPageToken : Option σ
deriving DecidableEq

/-- The listing capability: `fetch none` models `service.list(**kwargs)`,
`fetch (some t)` models `service.list(pageToken=t, **kwargs)`. -/
structure Service (α σ : Type) where
  fetch : Option σ → Resp α σ

variable {α σ : Type}

/-- `filter_exp` applied to a whole list (identity when absent). -/
def filt (fe : Option (α → Bool)) (l : List α) : List α :=
  match fe with
  | some f => l.filter f
  | none => l

/-- The source's `filter_exp is not None and not filter_exp(x)`. -/
def failsFilter (fe : Option (α → Bool)) (x : α) : Bool :=
  match fe with
  | some f => ! f x
  | none => false

/-- The source's `max_results is not None and object_count >= max_results`. -/
def atMax (mr : Option Nat) (count : Nat) : Bool :=
  match mr with
  | some m => decide (m ≤ count)
  | none => false

/-- The source's `break_condition is not None and break_condition(x)`. -/
def hitsBreak (bc : Option (α → Bool)) (x : α) : Bool :=
  match bc with
  | some b => b x
  | none => false

/-- Concatenation of a list of pages. -/
def flat : List (List α) → List α
  | [] => []
  | l :: ls => l ++ flat ls

/-- The per-page `for x in resp[object_name]` body of `gwrappy/utils.py`:
returns the items yielded from this page, the updated `object_count`, and
whether the loop broke out (which in the source pops `nextPageToken`). -/
def processItems (fe : Option (α → Bool)) (mr : Option Nat) (bc : Option (α → Bool)) :
    List α → Nat → List α × Nat × Bool
  | [], count => ([], count, false)
  | x :: xs, count =>
    if failsFilter fe x then
      processItems fe mr bc xs count
    else if atMax mr count then
      ([], count, true)
    else if hitsBreak bc x then
      ([], count, true)
    else
      let r := processItems fe mr bc xs (count + 1)
      (x :: r.1, r.2.1, r.2.2)

/-- Processing of one response: the source's `if object_name in resp` guard
around the item loop. -/
def pageYield (fe : Option (α → Bool)) (mr : Option Nat) (bc : Option (α → Bool))
    (resp : Resp α σ) (count : Nat) : List α × Nat × Bool :=
  match resp.items with
  | some l => processItems fe mr bc l count
  | none => ([], count, false)

/-- The page loop of `gwrappy/utils.py`: process the fetched response, then,
while `nextPageToken` survives (it is popped on break), fetch the next page.
Returns the yielded items and the number of page fetches, `none` when the
fuel is exhausted before the loop ends. -/
def iterListAux (svc : Service α σ) (fe : Option (α → Bool)) (mr : Option Nat)
    (bc : Option (α → Bool)) : Nat → Resp α σ → Nat → Option (List α × Nat)
  | 0, resp, count =>
    match (if (pageYield fe mr bc resp count).2.2 then none else resp.nextPageToken) with
    | none => some ((pageYield fe mr bc resp count).1, 1)
    | some _ => none
  | fuel + 1, resp, count =>
    match (if (pageYield fe mr bc resp count).2.2 then none else resp.nextPageToken) with
    | none => some ((pageYield fe mr bc resp count).1, 1)
    | some t =>
      match iterListAux svc fe mr bc fuel (svc.fetch (some t)) (pageYield fe mr bc resp count).2.1 with
      | none => none
      | some (zs, n) => some ((pageYield fe mr bc resp count).1 ++ zs, n + 1)

/-- The generator `iterate_list` of `gwrappy/utils.py`, fully consumed:
first fetch without a token, then the page loop. -/
def iterate_list (svc : Service α σ) (fe : Option (α → Bool)) (mr : Option Nat)
    (bc : Option (α → Bool)) (fuel : Nat) : Option (List α × Nat) :=
  iterListAux svc fe mr bc fuel (svc.fetch none) 0

/-- A chained sequence of pages, the continuation token being the list of
remaining pages: the response for the page list `p :: ps` carries a token
exactly when further pages remain. -/
def chainResp : List (Option (List α)) → Resp α (List (Option (List α)))
  | [] => { items := some [], nextPageToken := none }
  | p :: ps => { items := p, nextPageToken := if ps.isEmpty then none else some ps }

/-- The service for a chained sequence of pages. -/
def chainService (pss : List (Option (List α))) : Service α (List (Option (List α))) :=
  { fetch := fun t => chainResp (t.getD pss) }

lemma filt_nil (fe : Option (α → Bool)) : filt fe ([] : List α) = [] := by
  cases fe <;> simp [filt]

lemma filt_cons (fe : Option (α → Bool)) (x : α) (xs : List α) :
    filt fe (x :: xs) = if failsFilter fe x then filt fe xs else x :: filt fe xs := by
  cases fe with
  | none => simp [filt, failsFilter]
  | some f => cases hfx : f x <;> simp [filt, failsFilter, List.filter_cons, hfx]

lemma processItems_no_mr_no_bc (fe : Option (α → Bool)) (l : List α) :
    ∀ count : Nat, processItems fe none none l count
      = (filt fe l, count + (filt fe l).length, false) := by
  induction l with
  | nil => intro count; simp [processItems, filt_nil]
  | cons x xs ih =>
    intro count
    rw [filt_cons]
    cases hx : failsFilter fe x with
    | true => simp [processItems, hx, ih]
    | false =>
      simp [processItems, hx, atMax, hitsBreak, ih]
      omega

lemma pageYield_chain_cons (p : Option (List α)) (ps : List (Option (List α))) (count : Nat) :
    pageYield none none none (chainResp (p :: ps)) count
      = (p.getD [], count + (p.getD []).length, false) := by
  cases p <;> simp [chainResp, pageYield, processItems_no_mr_no_bc, filt]

lemma iterListAux_stop (svc : Service α σ) (fe : Option (α → Bool)) (mr : Option Nat)
    (bc : Option (α → Bool)) (resp : Resp α σ) (count : Nat)
    (h : (if (pageYield fe mr bc resp count).2.2 then none else resp.nextPageToken)
      = (none : Option σ)) :
    ∀ fuel, iterListAux svc fe mr bc fuel resp count
      = some ((pageYield fe mr bc resp count).1, 1) := by
  intro fuel
  cases fuel with
  | zero => rw [iterListAux, h]
  | succ fuel => rw [iterListAux, h]

lemma iterListAux_step (svc : Service α σ) (fe : Option (α → Bool)) (mr : Option Nat)
    (bc : Option (α → Bool)) (resp : Resp α σ) (count fuel : Nat) (t : σ)
    (h : (if (pageYield fe mr bc resp count).2.2 then none else resp.nextPageToken) = some t) :
    iterListAux svc fe mr bc (fuel + 1) resp count
      = match iterListAux svc fe mr bc fuel (svc.fetch (some t))
            (pageYield fe mr bc resp count).2.1 with
        | none => none
        | some (zs, n) => some ((pageYield fe mr bc resp count).1 ++ zs, n + 1) := by
  rw [iterListAux, h]

lemma iterListAux_chain (svc : Service α (List (Option (List α))))
    (hsvc : ∀ t, svc.fetch (some t) = chainResp t) :
    ∀ (ps : List (Option (List α))) (fuel count : Nat), ps ≠ [] →
    ps.length ≤ 1 + fuel →
    iterListAux svc none none none fuel (chainResp ps) count
      = some (flat (ps.map (fun o => o.getD [])), ps.length) := by
  intro ps
  induction ps with
  | nil => intro fuel count h; exact absurd rfl h
  | cons p ps ih =>
    intro fuel count _ hfuel
    cases ps with
    | nil =>
      rw [iterListAux_stop _ _ _ _ _ _
        (by rw [pageYield_chain_cons]; simp [chainResp]) fuel]
      rw [pageYield_chain_cons]
      simp [flat]
    | cons q qs =>
      obtain ⟨fuel', rfl⟩ : ∃ f', fuel = f' + 1 :=
        ⟨fuel - 1, by simp at hfuel; omega⟩
      have hrec := ih fuel' (count + (p.getD []).length) (by simp)
        (by simp at hfuel ⊢; omega)
      rw [iterListAux_step _ _ _ _ _ _ _ (q :: qs)
        (by rw [pageYield_chain_cons]; simp [chainResp])]
      rw [hsvc, pageYield_chain_cons]
      simp only [Prod.fst, Prod.snd]
      rw [hrec]
      simp [flat]

/-- Two listing pages with items of an abstract label type, chained by the
token `"T1"`, as in the spec's concrete scenario. -/
inductive Item
  | A
  | B
  | C
  | D
  | E
deriving DecidableEq

/-- Page 1 returns `[A, B, C]` with token `"T1"`; fetching with `"T1"`
returns `[D, E]` with no token. -/
def twoPageService : Service Item String :=
  { fetch := fun t =>
      match t with
      | none => { items := some [Item.A, Item.B, Item.C], nextPageToken := some "T1" }
      | some t =>
        if t = "T1" then { items := some [Item.D, Item.E], nextPageToken := none }
        else { items := none, nextPageToken := none } }

lemma map_some_getD (pss : List (List α)) :
    (pss.map some).map (fun o => o.getD []) = pss := by
  induction pss with
  | nil => rfl
  | cons p ps ih => simp [ih]

lemma length_flat (pss : List (List α)) :
    (flat pss).length = (pss.map List.length).sum := by
  induction pss with
  | nil => rfl
  | cons p ps ih => simp [flat, ih]

/-- Claim C1: with no filter, cap or break condition, `iterate_list` yields
exactly the concatenation of all pages' item arrays in page order, with one
fetch per page (so the item count is the sum of the per-page counts); and in
the concrete scenario with page `[A,B,C]`, token `"T1"`, then page `[D,E]`
without a token, it yields `[A,B,C,D,E]` using exactly 2 fetches. -/
theorem iterate_list_concatenates_pages :
    (∀ (α : Type) (pss : List (List α)) (fuel : Nat),
      pss ≠ [] → pss.length ≤ 1 + fuel →
      iterate_list (chainService (pss.map some)) none none none fuel
        = some (flat pss, pss.length)
      ∧ (flat pss).length = (pss.map List.length).sum)
    ∧ iterate_list twoPageService none none none 5
        = some ([Item.A, Item.B, Item.C, Item.D, Item.E], 2) := by
  constructor
  · intro α pss fuel hne hfuel
    refine ⟨?_, length_flat pss⟩
    have h := iterListAux_chain (chainService (pss.map some)) (fun t => rfl)
      (pss.map some) fuel 0 (by simpa using hne) (by simpa using hfuel)
    rw [iterate_list]
    have hfetch : (chainService (pss.map some)).fetch none = chainResp (pss.map some) := rfl
    rw [hfetch, h, map_some_getD]
    simp
  · decide

/-- Witness for C1 at the two-page sequence `[[0,1],[2]]` over `Nat`. -/
theorem iterate_list_concatenates_pages_witness :
    iterate_list (chainService ([[0, 1], [2]].map some)) none none none 3
      = some (flat [[0, 1], [2]], 2) :=
  (iterate_list_concatenates_pages.1 Nat [[0, 1], [2]] 3 (by decide) (by decide)).1

/-- The filter-passing items of a chained page sequence, in page order. -/
def filtPages (fe : Option (α → Bool)) (pss : List (Option (List α))) : List α :=
  flat (pss.map (fun o => filt fe (o.getD [])))

lemma processItems_max (fe : Option (α → Bool)) (k : Nat) (l : List α) :
    ∀ count : Nat, count ≤ k →
    processItems fe (some k) none l count
      = ((filt fe l).take (k - count), min (count + (filt fe l).length) k,
          decide (k - count < (filt fe l).length)) := by
  induction l with
  | nil =>
    intro count hc
    simp [processItems, filt_nil]
    omega
  | cons x xs ih =>
    intro count hc
    rw [filt_cons]
    cases hx : failsFilter fe x with
    | true => simp [processItems, hx, ih count hc]
    | false =>
      rcases Nat.lt_or_ge count k with hck | hck
      · have hatm : atMax (some k) count = false := by
          simp [atMax]; omega
        have hsub : k - count = (k - (count + 1)) + 1 := by omega
        simp only [processItems, hx, Bool.false_eq_true, if_false, hatm, hitsBreak,
          ih (count + 1) (by omega)]
        rw [hsub, List.take_succ_cons]
        simp only [List.length_cons]
        rw [show min (count + 1 + (filt fe xs).length) k
            = min (count + ((filt fe xs).length + 1)) k by omega]
        simp only [Prod.mk.injEq, decide_eq_decide]
        refine ⟨trivial, trivial, by omega⟩
      · have hkc : atMax (some k) count = true := by
          simp [atMax]; omega
        have h0 : k - count = 0 := by omega
        simp [processItems, hx, hkc, h0]
        omega

lemma pageYield_chain_cons_max (fe : Option (α → Bool)) (k : Nat) (p : Option (List α))
    (ps : List (Option (List α))) (count : Nat) (hc : count ≤ k) :
    pageYield fe (some k) none (chainResp (p :: ps)) count
      = ((filt fe (p.getD [])).take (k - count),
          min (count + (filt fe (p.getD [])).length) k,
          decide (k - count < (filt fe (p.getD [])).length)) := by
  cases p with
  | none =>
    simp [chainResp, pageYield, filt_nil]
    omega
  | some l => simp [chainResp, pageYield, processItems_max fe k l count hc]

lemma iterListAux_chain_max (svc : Service α (List (Option (List α))))
    (hsvc : ∀ t, svc.fetch (some t) = chainResp t) (fe : Option (α → Bool)) (k : Nat) :
    ∀ (ps : List (Option (List α))) (fuel count : Nat), ps ≠ [] → count ≤ k →
    ps.length ≤ 1 + fuel →
    ∃ n, iterListAux svc fe (some k) none fuel (chainResp ps) count
        = some ((filtPages fe ps).take (k - count), n)
      ∧ 1 ≤ n ∧ n ≤ ps.length := by
  intro ps
  induction ps with
  | nil => intro fuel count h; exact absurd rfl h
  | cons p ps ih =>
    intro fuel count _ hck hfuel
    have hflat : filtPages fe (p :: ps)
        = filt fe (p.getD []) ++ filtPages fe ps := by
      simp [filtPages, flat]
    by_cases hbrk : k - count < (filt fe (p.getD [])).length
    · refine ⟨1, ?_, Nat.le_refl 1, by simp⟩
      rw [iterListAux_stop _ _ _ _ _ _
        (by rw [pageYield_chain_cons_max fe k p ps count hck]; simp [hbrk]) fuel]
      rw [pageYield_chain_cons_max fe k p ps count hck, hflat,
        List.take_append_of_le_length (by omega)]
    · cases ps with
      | nil =>
        refine ⟨1, ?_, Nat.le_refl 1, by simp⟩
        rw [iterListAux_stop _ _ _ _ _ _
          (by rw [pageYield_chain_cons_max fe k p [] count hck]; simp [hbrk, chainResp]) fuel]
        rw [pageYield_chain_cons_max fe k p [] count hck, hflat]
        simp [filtPages, flat]
      | cons q qs =>
        obtain ⟨fuel', rfl⟩ : ∃ f', fuel = f' + 1 :=
          ⟨fuel - 1, by simp at hfuel; omega⟩
        have hc2 : count + (filt fe (p.getD [])).length ≤ k := by omega
        obtain ⟨n, hn, hn1, hn2⟩ := ih fuel' (count + (filt fe (p.getD [])).length)
          (by simp) hc2 (by simp at hfuel ⊢; omega)
        refine ⟨n + 1, ?_, by omega,
          by simp only [List.length_cons] at hn2 ⊢; omega⟩
        rw [iterListAux_step _ _ _ _ _ _ _ (q :: qs)
          (by rw [pageYield_chain_cons_max fe k p (q :: qs) count hck]
              simp [hbrk, chainResp])]
        rw [hsvc, pageYield_chain_cons_max fe k p (q :: qs) count hck]
        have hmin : min (count + (filt fe (p.getD [])).length) k
            = count + (filt fe (p.getD [])).length := by omega
        simp only [hmin, hn]
        rw [hflat, List.take_append_eq_append_take, Nat.sub_sub]

/-- Claim C2 (amended): with `max_results = k` and at least `k` filter-passing
items available, `iterate_list` yields exactly the first `k` filter-passing
items in page order; page fetching, however, may continue past the page
containing the `k`-th yielded item (it stops only when a later fetched page
contains a filter-passing item, which triggers the cap check and clears the
continuation token, or when tokens are exhausted), so the fetch count is only
bounded by the number of pages. -/
theorem iterate_list_take_max_results :
    ∀ (α : Type) (pss : List (Option (List α))) (fe : Option (α → Bool)) (k fuel : Nat),
    pss ≠ [] → pss.length ≤ 1 + fuel →
    ∃ n, iterate_list (chainService pss) fe (some k) none fuel
        = some ((filtPages fe pss).take k, n)
      ∧ 1 ≤ n ∧ n ≤ pss.length
      ∧ (k ≤ (filtPages fe pss).length → ((filtPages fe pss).take k).length = k) := by
  intro α pss fe k fuel hne hfuel
  obtain ⟨n, hn, h1, h2⟩ := iterListAux_chain_max (chainService pss) (fun t => rfl)
    fe k pss fuel 0 hne (Nat.zero_le k) hfuel
  refine ⟨n, ?_, h1, h2, fun hk => ?_⟩
  · rw [iterate_list]
    have hfetch : (chainService pss).fetch none = chainResp pss := rfl
    rw [hfetch, hn, Nat.sub_zero]
  · rw [List.length_take]
    omega

/-- Witness for the amended C2 at one page `[0,1,2]` with `max_results = 2`. -/
theorem iterate_list_take_max_results_witness :
    ∃ n, iterate_list (chainService [some [0, 1, 2]]) none (some 2) none 1
        = some ((filtPages none [some [0, 1, 2]]).take 2, n)
      ∧ 1 ≤ n ∧ n ≤ 1
      ∧ (2 ≤ (filtPages none [some [0, 1, 2]]).length
          → ((filtPages none [some [0, 1, 2]]).take 2).length = 2) :=
  iterate_list_take_max_results Nat [some [0, 1, 2]] none 2 1 (by decide) (by decide)

/-- Counterexample to C2 as stated: with `max_results = 1` and pages
`[0]` (with a continuation token) then `[1]`, the 1st yielded item lies on
page 1, yet the generator performs 2 page fetches — the cap check only fires
on the next filter-passing item, which here lives on the next page. -/
theorem iterate_list_extra_fetch_at_cap :
    iterate_list (chainService [some [0], some [1]]) none (some 1) none 5
      = some ([0], 2) := by decide

namespace Iterator

/-- The source's `object_count > max_results` truncation of
`gwrappy/iterator.py`: when the cap is strictly exceeded, the accumulated
list truncated to the cap, otherwise nothing. -/
def truncIf (mr : Option Nat) (l : List α) : Option (List α) :=
  match mr with
  | some m => if m < l.length then some (l.take m) else none
  | none => none

/-- One `if object_name in resp` accumulation step of `gwrappy/iterator.py`. -/
def accPage (fe : Option (α → Bool)) (resp : Resp α σ) (acc : List α) : List α :=
  match resp.items with
  | some l => acc ++ filt fe l
  | none => acc

/-- The `while 'nextPageToken' in resp` loop of `gwrappy/iterator.py`:
fetch the next page, accumulate its (filtered) items, truncate and stop if
the cap is strictly exceeded. Returns the list and the number of fetches
performed inside the loop. -/
def iterLoop (svc : Service α σ) (fe : Option (α → Bool)) (mr : Option Nat) :
    Nat → Resp α σ → List α → Option (List α × Nat)
  | 0, resp, acc =>
    match resp.nextPageToken with
    | none => some (acc, 0)
    | some _ => none
  | fuel + 1, resp, acc =>
    match resp.nextPageToken with
    | none => some (acc, 0)
    | some t =>
      match truncIf mr (accPage fe (svc.fetch (some t)) acc) with
      | some tl => some (tl, 1)
      | none =>
        match iterLoop svc fe mr fuel (svc.fetch (some t))
            (accPage fe (svc.fetch (some t)) acc) with
        | none => none
        | some (l, n) => some (l, n + 1)

/-- The eager `iterate_list` of `gwrappy/iterator.py`. When the first
response lacks the `object_name` key the function returns `[]` at once;
otherwise the accumulated list is built page by page. The second component
counts page fetches. -/
def iterate_list (svc : Service α σ) (fe : Option (α → Bool)) (mr : Option Nat)
    (fuel : Nat) : Option (List α × Nat) :=
  match (svc.fetch none).items with
  | none => some ([], 1)
  | some l =>
    match truncIf mr (filt fe l) with
    | some tl => some (tl, 1)
    | none =>
      match iterLoop svc fe mr fuel (svc.fetch none) (filt fe l) with
      | none => none
      | some (res, n) => some (res, n + 1)

end Iterator

/-- A first page whose response lacks the result key but carries a
continuation token, the second page holding one item. -/
def missingFirstPage : Service Nat Nat :=
  { fetch := fun t =>
      match t with
      | none => { items := none, nextPageToken := some 1 }
      | some _ => { items := some [7], nextPageToken := none } }

/-- Counterexample to C3 as stated: for the eager `iterate_list` of
`gwrappy/iterator.py`, a first page lacking the `object_name` key makes the
function return `[]` after a single fetch, without following the page's
continuation token — contrary to the claim that iteration proceeds to the
next page whenever a token is present. -/
theorem iterator_missing_first_key_counterexample :
    Iterator.iterate_list missingFirstPage none none 5 = some ([], 1) := by
  decide

/-- Claim C3 (amended): a page lacking the `object_name` key contributes
zero items and no error, and the generator `iterate_list` of
`gwrappy/utils.py` keeps following continuation tokens across such pages,
stopping only when a page carries no token; the eager variant of
`gwrappy/iterator.py` behaves that way only for non-first pages — when its
FIRST response lacks the key it returns `[]` immediately, ignoring the
token. -/
theorem missing_response_key_pages :
    (∀ (α : Type) (pss : List (Option (List α))) (fuel : Nat),
      pss ≠ [] → pss.length ≤ 1 + fuel →
      iterate_list (chainService pss) none none none fuel
        = some (flat (pss.map (fun o => o.getD [])), pss.length))
    ∧ Iterator.iterate_list (chainService [some [5], none, some [6]]) none none 5
        = some ([5, 6], 3) := by
  constructor
  · intro α pss fuel hne hfuel
    have h := iterListAux_chain (chainService pss) (fun t => rfl)
      pss fuel 0 hne hfuel
    rw [iterate_list]
    have hfetch : (chainService pss).fetch none = chainResp pss := rfl
    rw [hfetch, h]
  · decide

/-- Witness for the amended C3: a token-bearing middle page with the key
absent contributes zero items and iteration continues to the last page. -/
theorem missing_response_key_pages_witness :
    iterate_list (chainService [some [3], none, some [4]]) none none none 2
      = some (flat ([some [3], none, some [4]].map (fun o => o.getD [])), 3) :=
  missing_response_key_pages.1 Nat [some [3], none, some [4]] 2
    (by decide) (by decide)

lemma processItems_break (fe bc : Option (α → Bool)) (x : α) (l2 : List α)
    (hfx : failsFilter fe x = false) (hbx : hitsBreak bc x = true) :
    ∀ (l1 : List α) (count : Nat),
    (∀ y ∈ l1, failsFilter fe y = true ∨ hitsBreak bc y = false) →
    processItems fe none bc (l1 ++ x :: l2) count
      = (filt fe l1, count + (filt fe l1).length, true) := by
  intro l1
  induction l1 with
  | nil =>
    intro count _
    simp [processItems, hfx, hbx, atMax, filt_nil]
  | cons y ys ih =>
    intro count hall
    have htail : ∀ z ∈ ys, failsFilter fe z = true ∨ hitsBreak bc z = false :=
      fun z hz => hall z (by simp [hz])
    rw [filt_cons]
    cases hfy : failsFilter fe y with
    | true => simpa [processItems, hfy] using ih count htail
    | false =>
      have hby : hitsBreak bc y = false := by
        rcases hall y (by simp) with h | h
        · rw [hfy] at h; exact absurd h (by simp)
        · exact h
      simp [processItems, hfy, hby, atMax, ih (count + 1) htail]
      omega

/-- A single page `[A, B]` with no token, for exercising the interaction of
`filter_exp` and `break_condition`. -/
def breakFilterService : Service Item String :=
  { fetch := fun _ => { items := some [Item.A, Item.B], nextPageToken := none } }

/-- Counterexample to C4 as stated: with `filter_exp` accepting only `B` and
`break_condition` holding exactly on `A`, the page `[A, B]` yields `[B]` —
although `break_condition` holds on the raw first item `A`, iteration does
not stop there, because the source checks `filter_exp` first and `continue`
skips the break check entirely for filtered-out items. -/
theorem break_condition_filtered_counterexample :
    iterate_list breakFilterService (some fun x => decide (x = Item.B)) none
      (some fun x => decide (x = Item.A)) 5 = some ([Item.B], 1) := by
  decide

/-- Claim C4 (amended): `break_condition` is evaluated only on items that
pass `filter_exp` (filtered-out items skip it); when it holds on the first
filter-passing item `x` of the first page, iteration stops at `x`
immediately — only the filter-passing items before `x` are yielded and no
further page is fetched (a single fetch occurs), whatever continuation
token the page carries. -/
theorem break_condition_stops_amended :
    ∀ (α σ : Type) (svc : Service α σ) (fe bc : Option (α → Bool))
    (fuel : Nat) (l1 l2 : List α) (x : α),
    (svc.fetch none).items = some (l1 ++ x :: l2) →
    (∀ y ∈ l1, failsFilter fe y = true ∨ hitsBreak bc y = false) →
    failsFilter fe x = false → hitsBreak bc x = true →
    iterate_list svc fe none bc fuel = some (filt fe l1, 1) := by
  intro α σ svc fe bc fuel l1 l2 x hitems hall hfx hbx
  obtain ⟨tok, htok⟩ : ∃ tok, svc.fetch none
      = ({ items := some (l1 ++ x :: l2), nextPageToken := tok } : Resp α σ) :=
    ⟨(svc.fetch none).nextPageToken, by rw [← hitems]⟩
  have hpy : pageYield fe none bc
      ({ items := some (l1 ++ x :: l2), nextPageToken := tok } : Resp α σ) 0
      = (filt fe l1, 0 + (filt fe l1).length, true) :=
    processItems_break fe bc x l2 hfx hbx l1 0 hall
  rw [iterate_list, htok]
  rw [iterListAux_stop _ _ _ _ _ _ (by rw [hpy]; rfl) fuel, hpy]

/-- Witness for the amended C4: break on the very first raw item of the
page `[A, B]` stops iteration at once with nothing yielded. -/
theorem break_condition_stops_amended_witness :
    iterate_list breakFilterService none none
      (some fun x => decide (x = Item.A)) 5 = some ([], 1) :=
  break_condition_stops_amended Item String breakFilterService none
    (some fun x => decide (x = Item.A)) 5 [] [Item.B] Item.A
    (by decide) (by simp) (by decide) (by decide)

namespace BQ

/-- BigQuery's `status.errorResult` object, as read by `JobError.__init__`
(`gwrappy/bigquery/errors.py`): each field via `.get(..., None)`. -/
structure ErrorResult where
  message : Option String
  reason : Option String
  location : Option String
deriving DecidableEq

/-- The `status` object of a BigQuery job resource: `state`, optional
`errorResult`, optional `errors` list. -/
structure JobStatus where
  state : String
  errorResult : Option ErrorResult
  errors : Option (List ErrorResult)
deriving DecidableEq

/-- The parts of a BigQuery job resource read by `poll_job_status` and
`JobError`. -/
structure JobResp where
  id : String
  status : JobStatus
deriving DecidableEq

/-- An opaque transport error raised by the underlying client
(`googleapiclient.errors.HttpError`). -/
structure HttpErrorData where
  code : Nat
deriving DecidableEq

/-- The fields `JobError.__init__` extracts from a response whose status
carries `errorResult` (`gwrappy/bigquery/errors.py` lines 7-14). -/
structure JobErrorData where
  id : String
  message : Option String
  reason : Option String
  location : Option String
  errors : List ErrorResult
deriving DecidableEq

/-- `JobError(resp)` for a response whose `status.errorResult` is `er`. -/
def mkJobError (resp : JobResp) (er : ErrorResult) : JobErrorData :=
  { id := resp.id
    message := er.message
    reason := er.reason
    location := er.location
    errors := resp.status.errors.getD [] }

/-- Outcome of one `poll_job_status` call as observed by a caller:
normal return, raised `JobError`, or propagated `HttpError`. -/
inductive PollResult
  | ok (resp : JobResp)
  | jobError (e : JobErrorData)
  | httpError (e : HttpErrorData)
deriving DecidableEq

/-- The `while not status_state == 'DONE'` loop of `poll_job_status`
(`gwrappy/bigquery/bigquery.py` lines 226-240): each iteration fetches the
job (index `i` numbering successive `get_job` calls, a raised `HttpError`
propagating before the `sleep`), records the state, and sleeps; on exit the
`errorResult` check runs. Returns the outcome with the number of fetches
and the number of sleeps, or `none` when the fuel runs out first. -/
def pollAux (fetch : Nat → Except HttpErrorData JobResp) :
    Nat → Nat → Option (PollResult × Nat × Nat)
  | 0, _ => none
  | fuel + 1, i =>
    match fetch i with
    | .error e => some (.httpError e, 1, 0)
    | .ok resp =>
      if resp.status.state = "DONE" then
        match resp.status.errorResult with
        | some er => some (.jobError (mkJobError resp er), 1, 1)
        | none => some (.ok resp, 1, 1)
      else
        match pollAux fetch fuel (i + 1) with
        | none => none
        | some (r, f, s) => some (r, f + 1, s + 1)

/-- `poll_job_status`, starting at the first fetch. -/
def poll_job_status (fetch : Nat → Except HttpErrorData JobResp) (fuel : Nat) :
    Option (PollResult × Nat × Nat) :=
  pollAux fetch fuel 0

lemma pollAux_reaches (fetch : Nat → Except HttpErrorData JobResp) :
    ∀ (k fuel i : Nat) (r : JobResp), k < fuel →
    (∀ j, j < k → ∃ r0, fetch (i + j) = .ok r0 ∧ r0.status.state ≠ "DONE") →
    fetch (i + k) = .ok r → r.status.state = "DONE" →
    pollAux fetch fuel i
      = some ((match r.status.errorResult with
          | some er => PollResult.jobError (mkJobError r er)
          | none => PollResult.ok r), k + 1, k + 1) := by
  intro k
  induction k with
  | zero =>
    intro fuel i r hfuel hpre hk hdone
    obtain ⟨fuel', rfl⟩ : ∃ f', fuel = f' + 1 := ⟨fuel - 1, by omega⟩
    rw [Nat.add_zero] at hk
    cases her : r.status.errorResult <;> simp [pollAux, hk, hdone, her]
  | succ k ih =>
    intro fuel i r hfuel hpre hk hdone
    obtain ⟨fuel', rfl⟩ : ∃ f', fuel = f' + 1 := ⟨fuel - 1, by omega⟩
    obtain ⟨r0, hr0, hr0ne⟩ := hpre 0 (Nat.succ_pos k)
    rw [Nat.add_zero] at hr0
    have hstep : pollAux fetch (fuel' + 1) i
        = match pollAux fetch fuel' (i + 1) with
          | none => none
          | some (r, f, s) => some (r, f + 1, s + 1) := by
      simp [pollAux, hr0, hr0ne]
    have hk' : fetch (i + 1 + k) = .ok r := by
      rw [show i + 1 + k = i + (k + 1) by omega]; exact hk
    have hpre' : ∀ j, j < k → ∃ r0, fetch (i + 1 + j) = .ok r0
        ∧ r0.status.state ≠ "DONE" := by
      intro j hj
      obtain ⟨r1, h1, h2⟩ := hpre (j + 1) (by omega)
      exact ⟨r1, by rw [show i + 1 + j = i + (j + 1) by omega]; exact h1, h2⟩
    rw [hstep, ih fuel' (i + 1) r (by omega) hpre' hk' hdone]

/-- A response already in state `DONE` with no error. -/
def doneResp : JobResp :=
  { id := "job-1"
    status := { state := "DONE", errorResult := none, errors := none } }

/-- Counterexample to C5 as stated: a job already terminal on the first
fetch gives 1 fetch and 1 sleep — the source sleeps after every fetch,
including the terminal one, whereas the claim allows sleeps only between
consecutive fetches (0 here). -/
theorem poll_job_status_sleeps_counterexample :
    poll_job_status (fun _ => .ok doneResp) 3
      = some (.ok doneResp, 1, 1) := by decide

/-- Claim C5 (amended): for `k` non-terminal payloads followed by one
terminal payload, `poll_job_status` issues exactly one status fetch per
payload (`k + 1` fetches) and sleeps the configured `sleep_time` after
every fetch including the terminal one (`k + 1` sleeps, not `k`), then
returns or raises on the terminal fetch. -/
theorem poll_job_status_fetch_and_sleep_counts :
    ∀ (fetch : Nat → Except HttpErrorData JobResp) (k fuel : Nat) (r : JobResp),
    k < fuel →
    (∀ j, j < k → ∃ r0, fetch j = .ok r0 ∧ r0.status.state ≠ "DONE") →
    fetch k = .ok r → r.status.state = "DONE" →
    ∃ res, poll_job_status fetch fuel = some (res, k + 1, k + 1) := by
  intro fetch k fuel r hfuel hpre hk hdone
  have h := pollAux_reaches fetch k fuel 0 r hfuel (by simpa using hpre)
    (by simpa using hk) hdone
  exact ⟨_, h⟩

/-- A response still in state `RUNNING`. -/
def runningResp : JobResp :=
  { id := "job-1"
    status := { state := "RUNNING", errorResult := none, errors := none } }

/-- Witness for the amended C5: one non-terminal fetch then one terminal
fetch gives 2 fetches and 2 sleeps. -/
theorem poll_job_status_fetch_and_sleep_counts_witness :
    ∃ res, poll_job_status
      (fun i => if i = 0 then .ok runningResp else .ok doneResp) 3
      = some (res, 2, 2) :=
  poll_job_status_fetch_and_sleep_counts
    (fun i => if i = 0 then .ok runningResp else .ok doneResp) 1 3 doneResp
    (by omega)
    (by intro j hj
        interval_cases j
        exact ⟨runningResp, rfl, by decide⟩)
    rfl (by decide)

/-- Claim C6: when the terminal (`state == 'DONE'`) payload carries
`status.errorResult`, `poll_job_status` raises a `JobError` whose message,
reason and location come from `errorResult` and whose sub-error list comes
from `status.errors` (defaulting to `[]`); when the terminal payload has no
`errorResult`, the payload is returned without raising. -/
theorem poll_job_status_error_result :
    ∀ (fetch : Nat → Except HttpErrorData JobResp) (k fuel : Nat) (r : JobResp),
    k < fuel →
    (∀ j, j < k → ∃ r0, fetch j = .ok r0 ∧ r0.status.state ≠ "DONE") →
    fetch k = .ok r → r.status.state = "DONE" →
    (∀ er, r.status.errorResult = some er →
      poll_job_status fetch fuel
          = some (.jobError (mkJobError r er), k + 1, k + 1)
        ∧ (mkJobError r er).message = er.message
        ∧ (mkJobError r er).reason = er.reason
        ∧ (mkJobError r er).location = er.location
        ∧ (mkJobError r er).errors = r.status.errors.getD [])
    ∧ (r.status.errorResult = none →
      poll_job_status fetch fuel = some (.ok r, k + 1, k + 1)) := by
  intro fetch k fuel r hfuel hpre hk hdone
  have h := pollAux_reaches fetch k fuel 0 r hfuel (by simpa using hpre)
    (by simpa using hk) hdone
  constructor
  · intro er her
    rw [her] at h
    exact ⟨h, rfl, rfl, rfl, rfl⟩
  · intro her
    rw [her] at h
    exact h

/-- A terminal response carrying an `errorResult` and a sub-error list. -/
def errResult : ErrorResult :=
  { message := some "boom", reason := some "invalid", location := some "query" }

/-- A `DONE` response whose status carries `errResult`. -/
def badResp : JobResp :=
  { id := "job-2"
    status := { state := "DONE", errorResult := some errResult,
                errors := some [errResult] } }

/-- Witness for C6, covering both branches: the errored terminal response
raises a `JobError` with the extracted fields; the clean terminal response
is returned. -/
theorem poll_job_status_error_result_witness :
    (poll_job_status (fun _ => .ok badResp) 2
        = some (.jobError (mkJobError badResp errResult), 1, 1)
      ∧ (mkJobError badResp errResult).message = errResult.message
      ∧ (mkJobError badResp errResult).reason = errResult.reason
      ∧ (mkJobError badResp errResult).location = errResult.location
      ∧ (mkJobError badResp errResult).errors = badResp.status.errors.getD [])
    ∧ poll_job_status (fun _ => .ok doneResp) 2 = some (.ok doneResp, 1, 1) :=
  ⟨(poll_job_status_error_result (fun _ => .ok badResp) 0 2 badResp
      (by omega) (by intro j hj; omega) rfl (by decide)).1 errResult (by decide),
    (poll_job_status_error_result (fun _ => .ok doneResp) 0 2 doneResp
      (by omega) (by intro j hj; omega) rfl (by decide)).2 (by decide)⟩

/-- The `while` loop of `poll_resp_list` (`gwrappy/bigquery/bigquery.py`
lines 986-998): each reference is polled in input order, a raised
`JobError` or `HttpError` being captured in place of the final payload so
that the remaining references are still polled. `svc ref` is the fetch
sequence behind reference `ref`. -/
def poll_resp_list (svc : Nat → Nat → Except HttpErrorData JobResp)
    (fuel : Nat) : List Nat → Option (List PollResult)
  | [] => some []
  | ref :: refs =>
    match (pollAux (svc ref) fuel 0).map Prod.fst with
    | none => none
    | some p =>
      match poll_resp_list svc fuel refs with
      | none => none
      | some ps => some (p :: ps)

/-- Claim C8: `poll_resp_list` returns one outcome per input reference, in
1:1 positional correspondence; a failing reference contributes its captured
error object without preventing the others from being polled. The concrete
3-reference scenario has the 2nd reference raising a `JobError` while the
1st and 3rd succeed. -/
theorem poll_resp_list_positional :
    (∀ (svc : Nat → Nat → Except HttpErrorData JobResp) (fuel : Nat)
      (refs : List Nat),
      (∀ r ∈ refs, (pollAux (svc r) fuel 0).isSome = true) →
      ∃ l, poll_resp_list svc fuel refs = some l
        ∧ l.length = refs.length
        ∧ ∀ i, i < refs.length →
            l[i]? = (pollAux (svc (refs.getD i 0)) fuel 0).map Prod.fst)
    ∧ poll_resp_list (fun ref _ => if ref = 1 then .ok badResp else .ok doneResp)
        2 [0, 1, 2]
      = some [.ok doneResp, .jobError (mkJobError badResp errResult),
          .ok doneResp] := by
  constructor
  · intro svc fuel refs
    induction refs with
    | nil =>
      intro _
      exact ⟨[], rfl, rfl, fun i hi => by simp at hi⟩
    | cons r rs ih =>
      intro hall
      obtain ⟨p, hp⟩ : ∃ p, (pollAux (svc r) fuel 0).map Prod.fst = some p := by
        have := hall r (by simp)
        cases hq : pollAux (svc r) fuel 0 with
        | none => rw [hq] at this; simp at this
        | some q => exact ⟨q.1, by simp [hq]⟩
      obtain ⟨l, hl, hlen, hpos⟩ := ih (fun z hz => hall z (by simp [hz]))
      refine ⟨p :: l, ?_, by simp [hlen], ?_⟩
      · rw [poll_resp_list, hp, hl]
      · intro i hi
        cases i with
        | zero => simpa using hp.symm
        | succ j =>
          simp only [List.getElem?_cons_succ, List.getD_cons_succ]
          exact hpos j (by simp at hi; omega)
  · decide

/-- Witness for C8 at two successful references. -/
theorem poll_resp_list_positional_witness :
    ∃ l, poll_resp_list (fun _ _ => .ok doneResp) 2 [4, 9] = some l
      ∧ l.length = ([4, 9] : List Nat).length
      ∧ ∀ i, i < ([4, 9] : List Nat).length →
          l[i]? = (pollAux ((fun _ _ => .ok doneResp) (([4, 9] : List Nat).getD i 0))
            2 0).map Prod.fst :=
  poll_resp_list_positional.1 (fun _ _ => .ok doneResp) 2 [4, 9] (by decide)

/-- Python values as far as the input validation of `copy_table` inspects
them: a dict (only its key set matters), a list of values, or anything
else. -/
inductive PyVal
  | dict (keys : List String)
  | pylist (elems : List PyVal)
  | other

/-- Lexicographic comparison of character lists by code point, matching
Python's string ordering. -/
def strLeAux : List Char → List Char → Bool
  | [], _ => true
  | _ :: _, [] => false
  | a :: as, b :: bs =>
    if a.toNat < b.toNat then true
    else if b.toNat < a.toNat then false
    else strLeAux as bs

/-- Python's `<=` on strings: code-point lexicographic order. -/
def strLe (s t : String) : Bool := strLeAux s.data t.data

/-- Insertion of a string into a sorted list, for modelling Python's
`sorted`. -/
def insortStr (s : String) : List String → List String
  | [] => [s]
  | t :: ts => if strLe s t then s :: t :: ts else t :: insortStr s ts

/-- Python's `sorted` on a list of strings (insertion sort). -/
def pySorted : List String → List String
  | [] => []
  | s :: ss => insortStr s (pySorted ss)

/-- `required_keys` of `copy_table` (`gwrappy/bigquery/bigquery.py`
line 721). -/
def requiredKeys : List String := ["datasetId", "projectId", "tableId"]

/-- The `assert` block of `copy_table` (lines 723-729): a dict must have
exactly the required key set; otherwise the value must be a list of dicts,
each with the required key set. -/
def copy_table_check : PyVal → Bool
  | .dict ks => decide (pySorted ks = requiredKeys)
  | .pylist es => es.all fun e =>
      match e with
      | .dict ks => decide (pySorted ks = requiredKeys)
      | _ => false
  | .other => false

/-- Result of a `copy_table` call, modelled up to the `jobs().insert`
remote call (`wait_finish` polling aside): either the assertion error, or
the normalized `sourceTables` list passed into the request body. -/
inductive CopyResult
  | assertionError
  | submitted (sources : List PyVal)

/-- The `sourceTables` normalization of `copy_table`: a single dict is
wrapped into a list. -/
def copy_table_sources : PyVal → List PyVal
  | .dict ks => [.dict ks]
  | .pylist es => es
  | .other => []

/-- `copy_table` up to its first remote call: the asserts run first, and
only if they pass is the insert issued. The second component counts remote
calls made. -/
def copy_table_model (source_data : PyVal) : CopyResult × Nat :=
  if copy_table_check source_data
    then (.submitted (copy_table_sources source_data), 1)
    else (.assertionError, 0)

/-- The argument of `poll_resp_list` as a Python value: the
`isinstance(response_list, (list, tuple, set))` assert distinguishes
list-likes from everything else. -/
inductive PyArg
  | listArg (refs : List Nat)
  | dictArg
  | otherArg
deriving DecidableEq

/-- `poll_resp_list` including its leading type assert (line 984): a
non-list-like argument raises the assertion error before any polling. -/
def poll_resp_list_py (svc : Nat → Nat → Except HttpErrorData JobResp)
    (fuel : Nat) : PyArg → Except Unit (Option (List PollResult))
  | .listArg refs => .ok (poll_resp_list svc fuel refs)
  | .dictArg => .error ()
  | .otherArg => .error ()

/-- Claim C9: malformed caller input — a `copy_table` source whose key set
differs from `{datasetId, projectId, tableId}`, or a `poll_resp_list`
argument that is not a list/tuple/set — raises an assertion error
immediately, before any remote call: `copy_table_model` reports 0 remote
calls, and `poll_resp_list_py` fails identically for every service, i.e.
without consulting it. -/
theorem assert_before_remote_call :
    (∀ src : PyVal, copy_table_check src = false →
      copy_table_model src = (.assertionError, 0))
    ∧ (∀ (svc : Nat → Nat → Except HttpErrorData JobResp) (fuel : Nat)
        (arg : PyArg), (∀ refs, arg ≠ .listArg refs) →
        poll_resp_list_py svc fuel arg = .error ()) := by
  constructor
  · intro src h
    rw [copy_table_model, h]
    rfl
  · intro svc fuel arg harg
    cases arg with
    | listArg refs => exact absurd rfl (harg refs)
    | dictArg => rfl
    | otherArg => rfl

/-- Witness for C9: a dict missing `tableId` is rejected with 0 remote
calls, and a dict argument to `poll_resp_list` fails before polling. -/
theorem assert_before_remote_call_witness :
    copy_table_model (.dict ["datasetId", "projectId"]) = (.assertionError, 0)
    ∧ poll_resp_list_py (fun _ _ => .ok doneResp) 2 .dictArg = .error () :=
  ⟨assert_before_remote_call.1 (.dict ["datasetId", "projectId"]) (by decide),
    assert_before_remote_call.2 (fun _ _ => .ok doneResp) 2 .dictArg
      (fun refs h => by cases h)⟩

end BQ

namespace DP

/-- The `status` object of a Dataproc job resource. -/
structure DpStatus where
  state : String
deriving DecidableEq

/-- The part of a Dataproc job resource read by `get_job`. -/
structure DpJob where
  status : DpStatus
deriving DecidableEq

/-- The `while not is_complete` loop of Dataproc's `get_job`
(`gwrappy/dataproc/dataproc.py` lines 269-286): fetch the job; with
`wait_finish` set, it is complete exactly when `status.state == 'DONE'`,
otherwise sleep and refetch; without `wait_finish` the first response is
returned. Returns the final payload with the fetch count, `none` when the
fuel runs out first. -/
def getJobAux (fetch : Nat → DpJob) (wait_finish : Bool) :
    Nat → Nat → Option (DpJob × Nat)
  | 0, _ => none
  | fuel + 1, i =>
    if wait_finish then
      if (fetch i).status.state = "DONE" then some (fetch i, 1)
      else
        match getJobAux fetch wait_finish fuel (i + 1) with
        | none => none
        | some (r, n) => some (r, n + 1)
    else some (fetch i, 1)

/-- Dataproc's `get_job`, starting at the first fetch. -/
def get_job (fetch : Nat → DpJob) (wait_finish : Bool) (fuel : Nat) :
    Option (DpJob × Nat) :=
  getJobAux fetch wait_finish fuel 0

/-- A job reporting `ERROR` on the first fetch and `DONE` afterwards. -/
def errThenDone : Nat → DpJob :=
  fun i => if i = 0 then ⟨⟨"ERROR"⟩⟩ else ⟨⟨"DONE"⟩⟩

/-- Counterexample to C7 as stated: polling with `wait_finish=True` over
the sequence `ERROR, DONE` does not stop at the `ERROR` payload — it keeps
polling and returns the later `DONE` payload after 2 fetches, so `ERROR`
(and likewise `CANCELLED`) is not treated as terminal. -/
theorem get_job_error_not_terminal_counterexample :
    get_job errThenDone true 5 = some (⟨⟨"DONE"⟩⟩, 2) := by decide

lemma getJobAux_reaches (fetch : Nat → DpJob) :
    ∀ (k fuel i : Nat), k < fuel →
    (∀ j, j < k → (fetch (i + j)).status.state ≠ "DONE") →
    (fetch (i + k)).status.state = "DONE" →
    getJobAux fetch true fuel i = some (fetch (i + k), k + 1) := by
  intro k
  induction k with
  | zero =>
    intro fuel i hfuel hpre hk
    obtain ⟨fuel', rfl⟩ : ∃ f', fuel = f' + 1 := ⟨fuel - 1, by omega⟩
    rw [Nat.add_zero] at hk ⊢
    simp [getJobAux, hk]
  | succ k ih =>
    intro fuel i hfuel hpre hk
    obtain ⟨fuel', rfl⟩ : ∃ f', fuel = f' + 1 := ⟨fuel - 1, by omega⟩
    have h0 : (fetch i).status.state ≠ "DONE" := by
      have := hpre 0 (Nat.succ_pos k)
      rwa [Nat.add_zero] at this
    have hk' : (fetch (i + 1 + k)).status.state = "DONE" := by
      rw [show i + 1 + k = i + (k + 1) by omega]; exact hk
    have hpre' : ∀ j, j < k → (fetch (i + 1 + j)).status.state ≠ "DONE" := by
      intro j hj
      have := hpre (j + 1) (by omega)
      rwa [show i + 1 + j = i + (j + 1) by omega]
    rw [show i + (k + 1) = i + 1 + k by omega]
    have hrec := ih fuel' (i + 1) (by omega) hpre' hk'
    simp [getJobAux, h0, hrec]

/-- Claim C7 (amended): with `wait_finish=True`, Dataproc's `get_job`
treats the job as terminal exactly when `status.state == 'DONE'`: it
returns on the first `DONE` payload, and a job stuck in `ERROR` or
`CANCELLED` is polled forever — those states do not end the loop. -/
theorem get_job_done_only_terminal :
    (∀ (fetch : Nat → DpJob) (k fuel : Nat), k < fuel →
      (∀ j, j < k → (fetch j).status.state ≠ "DONE") →
      (fetch k).status.state = "DONE" →
      get_job fetch true fuel = some (fetch k, k + 1))
    ∧ (∀ fuel, get_job (fun _ => ⟨⟨"ERROR"⟩⟩) true fuel = none)
    ∧ (∀ fuel, get_job (fun _ => ⟨⟨"CANCELLED"⟩⟩) true fuel = none) := by
  refine ⟨?_, ?_, ?_⟩
  · intro fetch k fuel hfuel hpre hk
    have h := getJobAux_reaches fetch k fuel 0 hfuel (by simpa using hpre)
      (by simpa using hk)
    rw [get_job, h]
    simp
  · intro fuel
    have : ∀ i, getJobAux (fun _ => DpJob.mk ⟨"ERROR"⟩) true fuel i = none := by
      induction fuel with
      | zero => intro i; rfl
      | succ f ihf => intro i; simp [getJobAux, ihf]
    exact this 0
  · intro fuel
    have : ∀ i, getJobAux (fun _ => DpJob.mk ⟨"CANCELLED"⟩) true fuel i = none := by
      induction fuel with
      | zero => intro i; rfl
      | succ f ihf => intro i; simp [getJobAux, ihf]
    exact this 0

/-- Witness for the amended C7 at the sequence `RUNNING, DONE`. -/
theorem get_job_done_only_terminal_witness :
    get_job (fun i => if i = 0 then ⟨⟨"RUNNING"⟩⟩ else ⟨⟨"DONE"⟩⟩) true 3
      = some ((fun i : Nat => if i = 0 then DpJob.mk ⟨"RUNNING"⟩
          else DpJob.mk ⟨"DONE"⟩) 1, 2) :=
  get_job_done_only_terminal.1
    (fun i => if i = 0 then ⟨⟨"RUNNING"⟩⟩ else ⟨⟨"DONE"⟩⟩) 1 3 (by omega)
    (by intro j hj
        interval_cases j
        decide)
    (by decide)

end DP

namespace CE

/-- The parts of a Compute Engine operation resource read by
`poll_operation_status`: the top-level `status` string; the `error` field,
which the code never reads, is carried to state that fact. -/
structure OpResp where
  status : String
  error : Option String
deriving DecidableEq

/-- The `while status != end_state` loop of `poll_operation_status`
(`gwrappy/compute/compute.py` lines 257-282): fetch the operation, record
its `status`, sleep, repeat until the status equals the caller-supplied
`end_state`. Returns the final payload with the fetch count, `none` when
the fuel runs out first. -/
def pollOpAux (fetch : Nat → OpResp) (end_state : String) :
    Nat → Nat → Option (OpResp × Nat)
  | 0, _ => none
  | fuel + 1, i =>
    if (fetch i).status = end_state then some (fetch i, 1)
    else
      match pollOpAux fetch end_state fuel (i + 1) with
      | none => none
      | some (r, n) => some (r, n + 1)

/-- `poll_operation_status`, starting at the first fetch. -/
def poll_operation_status (fetch : Nat → OpResp) (end_state : String)
    (fuel : Nat) : Option (OpResp × Nat) :=
  pollOpAux fetch end_state fuel 0

lemma pollOpAux_reaches (fetch : Nat → OpResp) (end_state : String) :
    ∀ (k fuel i : Nat), k < fuel →
    (∀ j, j < k → (fetch (i + j)).status ≠ end_state) →
    (fetch (i + k)).status = end_state →
    pollOpAux fetch end_state fuel i = some (fetch (i + k), k + 1) := by
  intro k
  induction k with
  | zero =>
    intro fuel i hfuel hpre hk
    obtain ⟨fuel', rfl⟩ : ∃ f', fuel = f' + 1 := ⟨fuel - 1, by omega⟩
    rw [Nat.add_zero] at hk ⊢
    simp [pollOpAux, hk]
  | succ k ih =>
    intro fuel i hfuel hpre hk
    obtain ⟨fuel', rfl⟩ : ∃ f', fuel = f' + 1 := ⟨fuel - 1, by omega⟩
    have h0 : (fetch i).status ≠ end_state := by
      have := hpre 0 (Nat.succ_pos k)
      rwa [Nat.add_zero] at this
    have hk' : (fetch (i + 1 + k)).status = end_state := by
      rw [show i + 1 + k = i + (k + 1) by omega]; exact hk
    have hpre' : ∀ j, j < k → (fetch (i + 1 + j)).status ≠ end_state := by
      intro j hj
      have := hpre (j + 1) (by omega)
      rwa [show i + 1 + j = i + (j + 1) by omega]
    rw [show i + (k + 1) = i + 1 + k by omega]
    simp only [pollOpAux, if_neg h0, ih fuel' (i + 1) (by omega) hpre' hk']

lemma pollOpAux_never (fetch : Nat → OpResp) (end_state : String)
    (h : ∀ j, (fetch j).status ≠ end_state) :
    ∀ fuel i, pollOpAux fetch end_state fuel i = none := by
  intro fuel
  induction fuel with
  | zero => intro i; rfl
  | succ f ihf => intro i; simp [pollOpAux, h i, ihf]

/-- Claim C10: `poll_operation_status` returns the first fetched payload
whose top-level `status` equals the caller-supplied `end_state`, never
raising a domain error whatever error information the payload carries (its
return type has no error case and the `error` field is never read); and
when no fetched payload ever reaches `end_state` — e.g. an operation stuck
in a different terminal state — the loop never returns, at any fuel. -/
theorem poll_operation_status_first_match :
    (∀ (fetch : Nat → OpResp) (end_state : String) (k fuel : Nat), k < fuel →
      (∀ j, j < k → (fetch j).status ≠ end_state) →
      (fetch k).status = end_state →
      poll_operation_status fetch end_state fuel = some (fetch k, k + 1))
    ∧ (∀ (fetch : Nat → OpResp) (end_state : String),
      (∀ j, (fetch j).status ≠ end_state) →
      ∀ fuel, poll_operation_status fetch end_state fuel = none) := by
  constructor
  · intro fetch end_state k fuel hfuel hpre hk
    have h := pollOpAux_reaches fetch end_state k fuel 0 hfuel
      (by simpa using hpre) (by simpa using hk)
    rw [poll_operation_status, h]
    simp
  · intro fetch end_state h fuel
    exact pollOpAux_never fetch end_state h fuel 0

/-- Witness for C10: an errored-but-`DONE` payload is returned as-is
(no raise), and an operation never reaching `DONE` never returns. -/
theorem poll_operation_status_first_match_witness :
    poll_operation_status
      (fun i => if i = 0 then OpResp.mk "RUNNING" none
        else OpResp.mk "DONE" (some "QUOTA_EXCEEDED")) "DONE" 3
      = some ((fun i : Nat => if i = 0 then OpResp.mk "RUNNING" none
          else OpResp.mk "DONE" (some "QUOTA_EXCEEDED")) 1, 2)
    ∧ poll_operation_status (fun _ => OpResp.mk "PENDING" none) "DONE" 4
      = none :=
  ⟨poll_operation_status_first_match.1
      (fun i => if i = 0 then OpResp.mk "RUNNING" none
        else OpResp.mk "DONE" (some "QUOTA_EXCEEDED")) "DONE" 1 3 (by omega)
      (by intro j hj
          interval_cases j
          decide)
      (by decide),
    poll_operation_status_first_match.2 (fun _ => OpResp.mk "PENDING" none)
      "DONE" (by intro j; show ¬ ("PENDING" = "DONE"); decide) 4⟩

end CE

end Gwrappy
